import Mathlib

/-!
Shallow embedding of the RecipeParser repository (`parsers.py`,
`web_to_cookbook.py`) and proofs about it.

Modelling conventions:
* Python strings are Lean `String`s; single-character `str.replace` calls
  are modelled character-wise (which is exactly what they do), and
  `str.lower` is modelled by `Char.toLower` (the inputs of interest are
  ASCII).
* JSON values appearing in `RecipeForCookBook.to_json` are modelled by the
  inductive `JVal`; Python truthiness of the field values is `JVal.truthy`.
* The filesystem below the target folder is a `Finset String` of existing
  entry names; `<target>/failed_urls.txt` is modelled by the `Finset
  String` of URLs it records (the file is written as a join of a Python
  `set`, so it holds each URL at most once).
* External effects (HTTP fetch, the third-party scraper library, disk
  writes) are an `Env` of functions returning `Except Exn _`; an `.error`
  models the call raising an exception.
* Python's `ExceptionGroup` is the structure `EGroup` (message plus the
  list of collected exceptions).
-/

namespace RecipeParser

/-- `Source` enum from `web_to_cookbook.py`. -/
inductive Source where
  | html : Source
  | url : Source
deriving DecidableEq, Repr

/-- A model exception: either a generic exception raised by an external
call (network, scraper library, disk), or a Python `AssertionError`. -/
inductive Exn where
  | err : String → Exn
  | assertionError : String → Exn
deriving DecidableEq, Repr

/-- Python `ExceptionGroup(msg, exceptions)`. -/
structure EGroup where
  msg : String
  exceptions : List Exn
deriving DecidableEq, Repr

/-- JSON-like values, as produced by `dataclasses.asdict` on
`RecipeForCookBook` in `parsers.py`. -/
inductive JVal where
  | s : String → JVal
  | i : Int → JVal
  | l : List JVal → JVal
  | d : List (String × JVal) → JVal

/-- Python truthiness for the values appearing in `as_dict`:
a string is truthy iff non-empty, a number iff non-zero, a list/dict iff
non-empty. -/
def JVal.truthy : JVal → Bool
  | .s v => !(v == "")
  | .i v => !(v == 0)
  | .l v => !v.isEmpty
  | .d v => !v.isEmpty

/-- The `RecipeForCookBook` dataclass of `parsers.py` (field names and
order as in the source; instruction dicts and the nutrition dict are
modelled as association lists of strings). -/
structure RecipeForCookBook where
  name : String
  recipeYield : Int
  author : String := ""
  description : String := ""
  url : String := ""
  image : String := ""
  prepTime : String := ""
  cookTime : String := ""
  totalTime : String := ""
  recipeCategory : String := ""
  keywords : List String := []
  tool : List String := []
  recipeIngredient : List String := []
  recipeInstructions : List (List (String × String)) := []
  nutrition : List (String × String) := []
  datePublished : String := ""
deriving DecidableEq, Repr

/-- `SCHEMA` constant of `parsers.py`. -/
def SCHEMA : List (String × JVal) :=
  [("@context", JVal.s "https://schema.org"), ("@type", JVal.s "Recipe")]

/-- `dataclasses.asdict(self)`: the ordered field/value dictionary of a
`RecipeForCookBook`, with values embedded as `JVal`. -/
def asdict (r : RecipeForCookBook) : List (String × JVal) :=
  [ ("name", JVal.s r.name)
  , ("recipeYield", JVal.i r.recipeYield)
  , ("author", JVal.s r.author)
  , ("description", JVal.s r.description)
  , ("url", JVal.s r.url)
  , ("image", JVal.s r.image)
  , ("prepTime", JVal.s r.prepTime)
  , ("cookTime", JVal.s r.cookTime)
  , ("totalTime", JVal.s r.totalTime)
  , ("recipeCategory", JVal.s r.recipeCategory)
  , ("keywords", JVal.l (r.keywords.map JVal.s))
  , ("tool", JVal.l (r.tool.map JVal.s))
  , ("recipeIngredient", JVal.l (r.recipeIngredient.map JVal.s))
  , ("recipeInstructions",
      JVal.l (r.recipeInstructions.map
        (fun dct => JVal.d (dct.map (fun kv => (kv.1, JVal.s kv.2))))))
  , ("nutrition", JVal.d (r.nutrition.map (fun kv => (kv.1, JVal.s kv.2))))
  , ("datePublished", JVal.s r.datePublished) ]

/-- `RecipeForCookBook.to_json`: drop the falsy entries of `as_dict`, then
`update` with `SCHEMA` (whose two keys are fresh, so they are appended). -/
def to_json (r : RecipeForCookBook) : List (String × JVal) :=
  ((asdict r).filter (fun kv => kv.2.truthy)) ++ SCHEMA

/-- Keys of a modelled JSON object (Python `dict` keys, in order). -/
def jsonKeys (obj : List (String × JVal)) : List String :=
  obj.map Prod.fst

/-- Python `s.lower()` (ASCII letters; see the module comment). -/
def pyLower (s : String) : String :=
  String.mk (s.data.map Char.toLower)

/-- Python `s.replace(pat, rep)` for one-character `pat`/`rep`, which
replaces every occurrence of the character. -/
def pyReplaceChar (pat rep : Char) (s : String) : String :=
  String.mk (s.data.map (fun c => if c = pat then rep else c))

/-- `RecipeForCookBook.folder_name`:
`self.name.lower().replace(" ", "_").replace("/", "-")`. -/
def folder_name (name : String) : String :=
  pyReplaceChar '/' '-' (pyReplaceChar ' ' '_' (pyLower name))

/-- The folder name as claim C6 describes it: the name lower-cased with
every space replaced by an underscore, and nothing else changed. -/
def folderNameClaimC6 (name : String) : String :=
  pyReplaceChar ' ' '_' (pyLower name)

/-- The folder name as amended: lower-cased, with every space replaced by
an underscore and every slash replaced by a hyphen, character by
character. -/
def folderNameAmendedC6 (name : String) : String :=
  String.mk (name.data.map (fun c =>
    if c.toLower = ' ' then '_'
    else if c.toLower = '/' then '-'
    else c.toLower))


/-! ### `Nat.repr` facts

The folder-collision loop in `HTMLToCookbook._create_target_folder` builds
candidate names `X`, `X_2`, `X_3`, ... with Python decimal rendering of the
counter; these lemmas establish that decimal rendering (Lean's `Nat.repr`)
is injective and non-empty, which makes the candidate names pairwise
distinct. -/

/-- The `i`-th candidate folder name: the derived folder name itself for
`i = 1`, and `f"{folder_name}_{i}"` afterwards. -/
def candidate (x : String) (i : Nat) : String :=
  if i ≤ 1 then x else x ++ "_" ++ Nat.repr i

def createFolderLoop (existing : Finset String) (x : String) : Nat → Nat → String
  | i, 0 => candidate x i
  | i, fuel+1 =>
    if candidate x i ∈ existing then createFolderLoop existing x (i+1) fuel
    else candidate x i

def createTargetFolder (existing : Finset String) (x : String) : String :=
  createFolderLoop existing x 1 (existing.card + 1)


/-! ### Orchestrator data model (`web_to_cookbook.py`) -/

/-- The `RecipeContainer` dataclass. `raw_recipe` (an `AbstractScraper`
from the external library) is modelled by the opaque string the scraper
returned; equality of containers is Python dataclass field-wise
equality. -/
structure Container where
  source : Source
  source_content : String
  success : Bool := false
  raw_recipe : Option String := none
  parsed_recipe : Option RecipeForCookBook := none
  target_folder : Option String := none
deriving DecidableEq, Repr

/-- The external world: HTTP fetches, the `recipe_scrapers` library, the
parser classes of `parsers.py`, and disk writes. A call returning
`.error e` models the call raising exception `e`. -/
structure Env where
  /-- `URLToCookbook._get_html_from_url` : url to page HTML. -/
  fetchHtml : String → Except Exn String
  /-- `HTMLToCookbook._html_to_recipe` : (html, url) to scraped recipe;
  the url argument is `""` on the raw-HTML path, where the method
  extracts a URL from the HTML itself. -/
  scrapeHtml : String → String → Except Exn String
  /-- `parsers.parse_recipe` applied to the container's `raw_recipe`. -/
  parseRecipe : Option String → Except Exn RecipeForCookBook
  /-- `HTMLToCookbook._save_to_json` : write `recipe.json` into the
  given folder. -/
  saveJson : String → RecipeForCookBook → Except Exn Unit
  /-- `HTMLToCookbook._get_and_save_image` : fetch the recipe image and
  write `full.jpg`. -/
  fetchImage : String → Except Exn Unit

/-- In-memory orchestrator state: the `_source_recipes` containers (as a
list recording the set's iteration order), the entries existing under the
target folder, and the URL set recorded in `failed_urls.txt`. -/
structure OState where
  containers : List Container
  fs : Finset String
  failedFile : Finset String
deriving DecidableEq

/-- `HTMLToCookbook._save_scraped_recipe`: parse the raw recipe, create
the target folder (collision-resolved, then `mkdir`), write
`recipe.json`, then fetch and write the image. Returns the filesystem,
the mutated container and the raised exception, if any. -/
def saveScrapedRecipe (env : Env) (fs : Finset String) (c : Container) :
    Finset String × Container × Option Exn :=
  match env.parseRecipe c.raw_recipe with
  | .error e => (fs, c, some e)
  | .ok parsed =>
    let c := { c with parsed_recipe := some parsed }
    let tgt := createTargetFolder fs (folder_name parsed.name)
    let c := { c with target_folder := some tgt }
    let fs := insert tgt fs
    match env.saveJson tgt parsed with
    | .error e => (fs, c, some e)
    | .ok _ =>
      match env.fetchImage parsed.image with
      | .error e => (fs, c, some e)
      | .ok _ => (fs, c, none)

/-- `HTMLToCookbook.html_to_cookbook`: scrape the raw HTML content and
save the result. There is no `try`/`except` here: failures propagate
without any cleanup, and `success` is not set (the caller sets it). -/
def htmlToCookbook (env : Env) (fs : Finset String) (c : Container) :
    Finset String × Container × Option Exn :=
  if c.source ≠ Source.html then
    (fs, c, some (Exn.assertionError "RecipeContainer must have source set to html."))
  else
    match env.scrapeHtml c.source_content "" with
    | .error e => (fs, c, some e)
    | .ok raw => saveScrapedRecipe env fs { c with raw_recipe := some raw }

/-- `URLToCookbook.web_to_cookbook` without its `try`/`except`: fetch the
page, scrape it, and save the result; on success set `success := true`
(the last statement of the `try` block). -/
def webTry (env : Env) (fs : Finset String) (c : Container) :
    Finset String × Container × Option Exn :=
  match env.fetchHtml c.source_content with
  | .error e => (fs, c, some e)
  | .ok html =>
    match env.scrapeHtml html c.source_content with
    | .error e => (fs, c, some e)
    | .ok raw =>
      match saveScrapedRecipe env fs { c with raw_recipe := some raw } with
      | (fs', c', some e) => (fs', c', some e)
      | (fs', c', none) => (fs', { c' with success := true }, none)

/-- `URLToCookbook.web_to_cookbook`: on an exception from the `try` body,
remove the container's target folder when it is set and exists, then
re-raise. -/
def webToCookbook (env : Env) (fs : Finset String) (c : Container) :
    Finset String × Container × Option Exn :=
  if c.source ≠ Source.url then
    (fs, c, some (Exn.assertionError "RecipeContainer must have source set to url."))
  else
    match webTry env fs c with
    | (fs', c', none) => (fs', c', none)
    | (fs', c', some e) =>
      match c'.target_folder with
      | none => (fs', c', some e)
      | some t => (if t ∈ fs' then (fs'.erase t, c', some e) else (fs', c', some e))

/-- Result of one batch loop: the containers after in-place mutation, the
filesystem, the collected per-item exceptions (in order), and the
`source_content` of each container that was processed. -/
structure LoopResult where
  containers : List Container
  fs : Finset String
  exns : List Exn
  processed : List String
deriving DecidableEq

/-- The loop of `URLToCookbook.run_through_urls`: iterate over the
not-yet-successful containers, skip non-URL sources, process each with
`web_to_cookbook`, collecting exceptions instead of letting them
escape. -/
def runUrlsLoop (env : Env) (fs : Finset String) : List Container → LoopResult
  | [] => ⟨[], fs, [], []⟩
  | c :: rest =>
    if c.success ∨ c.source ≠ Source.url then
      let r := runUrlsLoop env fs rest
      ⟨c :: r.containers, r.fs, r.exns, r.processed⟩
    else
      match webToCookbook env fs c with
      | (fs', c', e?) =>
        let r := runUrlsLoop env fs' rest
        ⟨c' :: r.containers, r.fs,
          (match e? with | some e => e :: r.exns | none => r.exns),
          c.source_content :: r.processed⟩

/-- `URLToCookbook._update_failed_urls_file`: read the URL set already in
the file, drop this run's successfully processed URLs, add this run's
still-unsuccessful URLs, and write the result back. -/
def updateFailedUrlsFile (prior : Finset String) (cs : List Container) : Finset String :=
  let successes := (cs.filter (fun c => c.success && decide (c.source = Source.url))).map
    (fun c => c.source_content)
  let failures := (cs.filter (fun c => !c.success && decide (c.source = Source.url))).map
    (fun c => c.source_content)
  (prior \ successes.toFinset) ∪ failures.toFinset

/-- Result of a whole batch run: final state, collected exceptions,
processed source contents, and the `ExceptionGroup` raised at the end, if
any. -/
structure RunResult where
  state : OState
  exns : List Exn
  processed : List String
  raised : Option EGroup
deriving DecidableEq

/-- `URLToCookbook.run_through_urls`: run the loop, update
`failed_urls.txt`, then raise an `ExceptionGroup` iff any per-item
exceptions were collected. -/
def runThroughUrls (env : Env) (st : OState) : RunResult :=
  let r := runUrlsLoop env st.fs st.containers
  { state := ⟨r.containers, r.fs, updateFailedUrlsFile st.failedFile r.containers⟩
  , exns := r.exns
  , processed := r.processed
  , raised :=
      if r.exns.isEmpty then none
      else some ⟨Nat.repr r.exns.length ++ " exceptions raised during scraping!", r.exns⟩ }

/-- The loop of `HTMLToCookbook.run_through_htmls`: iterate over the
not-yet-successful containers, skip non-HTML sources, process each with
`html_to_cookbook`, setting `success := true` when it returns normally. -/
def runHtmlsLoop (env : Env) (fs : Finset String) : List Container → LoopResult
  | [] => ⟨[], fs, [], []⟩
  | c :: rest =>
    if c.success ∨ c.source ≠ Source.html then
      let r := runHtmlsLoop env fs rest
      ⟨c :: r.containers, r.fs, r.exns, r.processed⟩
    else
      match htmlToCookbook env fs c with
      | (fs', c', some e) =>
        let r := runHtmlsLoop env fs' rest
        ⟨c' :: r.containers, r.fs, e :: r.exns, c.source_content :: r.processed⟩
      | (fs', c', none) =>
        let r := runHtmlsLoop env fs' rest
        ⟨{ c' with success := true } :: r.containers, r.fs, r.exns,
          c.source_content :: r.processed⟩

/-- `HTMLToCookbook.run_through_htmls`: run the loop and raise an
`ExceptionGroup` iff any per-item exceptions were collected (no
failed-URL file update on this path). -/
def runThroughHtmls (env : Env) (st : OState) : RunResult :=
  let r := runHtmlsLoop env st.fs st.containers
  { state := ⟨r.containers, r.fs, st.failedFile⟩
  , exns := r.exns
  , processed := r.processed
  , raised :=
      if r.exns.isEmpty then none
      else some ⟨Nat.repr r.exns.length ++ " exceptions raised during HTML processing!", r.exns⟩ }

/-- `True` when no URL-source container remains unsuccessful (the loop
exit condition of `run_through_urls_with_retry`). -/
def allUrlSuccess (st : OState) : Bool :=
  st.containers.all (fun c => decide (c.source ≠ Source.url) || c.success)

/-- An observable event of `run_through_urls_with_retry`: one invocation
of `run_through_urls`, or one `time.sleep(secs)`. -/
inductive REvent where
  | run : REvent
  | sleep : Nat → REvent
deriving DecidableEq, Repr

/-- `URLToCookbook.run_through_urls_with_retry`: up to `retries` whole
batch attempts; each attempt swallows the batch `ExceptionGroup`, then
the loop breaks if every URL container succeeded, and otherwise sleeps
2 seconds before the next iteration. Returns the event trace, the state
after each attempt, and the final state. -/
def runWithRetry (env : Env) (st : OState) : Nat → List REvent × List OState × OState
  | 0 => ([], [], st)
  | Nat.succ n =>
    let r := runThroughUrls env st
    if allUrlSuccess r.state then ([REvent.run], [r.state], r.state)
    else
      let rec' := runWithRetry env r.state n
      (REvent.run :: REvent.sleep 2 :: rec'.1, r.state :: rec'.2.1, rec'.2.2)

/-! ### Construction (`__init__`) -/

/-- A container freshly built for a raw-HTML source. -/
def mkHtmlContainer (h : String) : Container :=
  { source := Source.html, source_content := h }

/-- A container freshly built for a URL source. -/
def mkUrlContainer (u : String) : Container :=
  { source := Source.url, source_content := u }

/-- Adding one element to a Python `set`, modelled as a list without
duplicates: a new element goes to the end of the iteration order. -/
def pySetInsert (s : List Container) (c : Container) : List Container :=
  if c ∈ s then s else s ++ [c]

/-- A Python set built from a list by repeated insertion (as a set
comprehension does). -/
def pySet (l : List Container) : List Container :=
  l.foldl pySetInsert []

/-- `HTMLToCookbook.__init__`: `self._source_recipes` is the set of
HTML containers. -/
def htmlToCookbookInitContainers (htmls : List String) : List Container :=
  pySet (htmls.map mkHtmlContainer)

/-- `URLToCookbook.__init__`: run the superclass `__init__`, then
`assert url_list` (an `AssertionError` when `url_list` is `None` or
empty), then `update` the container set with the URL containers. -/
def urlToCookbookInit (url_list : Option (List String)) (html_list : List String) :
    Except Exn (List Container) :=
  let base := htmlToCookbookInitContainers html_list
  match url_list with
  | none => Except.error (Exn.assertionError "No URLs provided for processing.")
  | some urls =>
    if urls.isEmpty then Except.error (Exn.assertionError "No URLs provided for processing.")
    else Except.ok ((pySet (urls.map mkUrlContainer)).foldl pySetInsert base)

/-- The source contents of the URL containers of a container list, in
order. -/
def urlContents (cs : List Container) : List String :=
  (cs.filter (fun c => decide (c.source = Source.url))).map (fun c => c.source_content)



/-! ### Concrete instances (used to exercise the theorems) -/

/-- A concrete environment in which every external call succeeds. -/
def okEnv : Env :=
  { fetchHtml := fun _ => Except.ok "<html>page</html>"
  , scrapeHtml := fun _ _ => Except.ok "scraped"
  , parseRecipe := fun _ => Except.ok { name := "Soup", recipeYield := 4 }
  , saveJson := fun _ _ => Except.ok ()
  , fetchImage := fun _ => Except.ok () }

/-- A concrete environment in which everything succeeds except
downloading the recipe image, so processing fails after the target
folder has been created. -/
def imageFailEnv : Env :=
  { okEnv with fetchImage := fun _ => Except.error (Exn.err "image download failed") }

/-- A concrete environment in which fetching any page fails, so
processing fails before any folder is created. -/
def fetchFailEnv : Env :=
  { okEnv with fetchHtml := fun _ => Except.error (Exn.err "http error") }


/-- A concrete already-successful URL container. -/
def successContainer : Container :=
  { source := Source.url, source_content := "https://e.x/done", success := true }

/-- A concrete state holding only `successContainer`. -/
def successState : OState := ⟨[successContainer], ∅, ∅⟩


/-- The URL set `_update_failed_urls_file` removes: source URLs of this
run's successful URL containers. -/
def successUrls (cs : List Container) : Finset String :=
  ((cs.filter (fun c => c.success && decide (c.source = Source.url))).map
    (fun c => c.source_content)).toFinset

/-- The URL set `_update_failed_urls_file` adds: source URLs of this
run's still-unsuccessful URL containers. -/
def failedUrls (cs : List Container) : Finset String :=
  ((cs.filter (fun c => !c.success && decide (c.source = Source.url))).map
    (fun c => c.source_content)).toFinset

/-- A concrete state holding a single fresh URL container. -/
def oneUrlState : OState := ⟨[mkUrlContainer "https://e.x/a"], ∅, ∅⟩


/-- Well-formed retry trace: batch invocations separated by exactly one
2-second pause (a trailing pause occurs when the last allowed attempt
still left failures). -/
inductive RetryShape : List REvent → Prop where
  | nil : RetryShape []
  | last : RetryShape [REvent.run]
  | step (t : List REvent) : RetryShape t → RetryShape (REvent.run :: REvent.sleep 2 :: t)


/-! ## Proof development

First the `Nat.repr` facts used by the folder-collision loop, then the
claim theorems. -/

lemma toDigitsCore_append (b : Nat) :
    ∀ (f n : Nat) (ds : List Char),
      Nat.toDigitsCore b f n ds = Nat.toDigitsCore b f n [] ++ ds := by
  intro f
  induction f with
  | zero => intro n ds; simp [Nat.toDigitsCore]
  | succ f ih =>
    intro n ds
    simp only [Nat.toDigitsCore]
    by_cases h : n / b = 0
    · simp [h]
    · simp only [h, if_neg, ite_false]
      rw [ih (n / b) (Nat.digitChar (n % b) :: ds), ih (n / b) [Nat.digitChar (n % b)]]
      simp

lemma toDigitsCore_fuel (b : Nat) (hb : 2 ≤ b) :
    ∀ (n f₁ f₂ : Nat), n < f₁ → n < f₂ → ∀ ds,
      Nat.toDigitsCore b f₁ n ds = Nat.toDigitsCore b f₂ n ds := by
  intro n
  induction n using Nat.strong_induction_on with
  | _ n ih =>
    intro f₁ f₂ h₁ h₂ ds
    obtain ⟨g₁, rfl⟩ : ∃ g, f₁ = g + 1 := ⟨f₁ - 1, by omega⟩
    obtain ⟨g₂, rfl⟩ : ∃ g, f₂ = g + 1 := ⟨f₂ - 1, by omega⟩
    simp only [Nat.toDigitsCore]
    by_cases h : n / b = 0
    · simp [h]
    · simp only [h, ite_false]
      have hn : 0 < n := by
        rcases Nat.eq_zero_or_pos n with rfl | hpos
        · simp [Nat.zero_div] at h
        · exact hpos
      have hdiv : n / b < n := Nat.div_lt_self hn (by omega)
      exact ih (n / b) hdiv g₁ g₂ (by omega) (by omega) _

lemma toDigits_lt10 (n : Nat) (hn : n < 10) : Nat.toDigits 10 n = [Nat.digitChar n] := by
  simp only [Nat.toDigits, Nat.toDigitsCore]
  have h : n / 10 = 0 := Nat.div_eq_of_lt hn
  simp [h, Nat.mod_eq_of_lt hn]

lemma toDigits_step (n : Nat) (hn : 10 ≤ n) :
    Nat.toDigits 10 n = Nat.toDigits 10 (n / 10) ++ [Nat.digitChar (n % 10)] := by
  have h : n / 10 ≠ 0 := by
    have := Nat.div_le_div_right (c := 10) hn
    simp at this; omega
  conv_lhs => simp only [Nat.toDigits, Nat.toDigitsCore]
  simp only [h, ite_false]
  rw [toDigitsCore_append 10 n (n / 10) [Nat.digitChar (n % 10)]]
  congr 1
  have hdiv : n / 10 < n := Nat.div_lt_self (by omega) (by omega)
  exact toDigitsCore_fuel 10 (by omega) (n / 10) n (n / 10 + 1) hdiv (by omega) []

lemma toDigits_ne_nil (n : Nat) : Nat.toDigits 10 n ≠ [] := by
  by_cases h : n < 10
  · simp [toDigits_lt10 n h]
  · simp [toDigits_step n (by omega)]

lemma digitChar_injOn : ∀ m < 10, ∀ n < 10, Nat.digitChar m = Nat.digitChar n → m = n := by
  decide

lemma toDigits_inj : ∀ m n : Nat, Nat.toDigits 10 m = Nat.toDigits 10 n → m = n := by
  intro m
  induction m using Nat.strong_induction_on with
  | _ m ih =>
    intro n h
    by_cases hm : m < 10 <;> by_cases hn : n < 10
    · rw [toDigits_lt10 m hm, toDigits_lt10 n hn] at h
      exact digitChar_injOn m hm n hn (List.cons.inj h).1
    · rw [toDigits_lt10 m hm, toDigits_step n (by omega)] at h
      have hl := congrArg List.length h
      simp at hl
      exact absurd hl (toDigits_ne_nil (n / 10))
    · rw [toDigits_step m (by omega), toDigits_lt10 n hn] at h
      have hl := congrArg List.length h
      simp at hl
      exact absurd hl (toDigits_ne_nil (m / 10))
    · rw [toDigits_step m (by omega), toDigits_step n (by omega)] at h
      obtain ⟨h1, h2⟩ := List.append_inj' h rfl
      have hmod : m % 10 = n % 10 :=
        digitChar_injOn (m % 10) (Nat.mod_lt m (by omega)) (n % 10) (Nat.mod_lt n (by omega))
          (List.cons.inj h2).1
      have hdivlt : m / 10 < m := Nat.div_lt_self (by omega) (by omega)
      have hdiv : m / 10 = n / 10 := ih (m / 10) hdivlt (n / 10) h1
      omega

lemma repr_inj (m n : Nat) (h : Nat.repr m = Nat.repr n) : m = n := by
  apply toDigits_inj
  simpa [Nat.repr, List.asString] using congrArg String.data h

lemma repr_ne_empty (n : Nat) : Nat.repr n ≠ "" := by
  intro h
  have := congrArg String.data h
  simp [Nat.repr, List.asString] at this
  exact toDigits_ne_nil n this


/-! ### `HTMLToCookbook._create_target_folder`

`candidate x i` is the name tried on iteration `i` of the `while` loop
(`x` itself first, then `x_2`, `x_3`, ...). The loop is modelled with
explicit fuel; `existing.card + 1` steps always suffice because the
candidates are pairwise distinct. -/


lemma candidate_inj (x : String) : ∀ i j, 1 ≤ i → 1 ≤ j → candidate x i = candidate x j → i = j := by
  have hrep : ∀ k, 1 ≤ (Nat.repr k).length := by
    intro k
    by_contra hlt
    apply repr_ne_empty k
    apply String.ext
    have hz : (Nat.repr k).data.length = 0 := by
      have hb : (Nat.repr k).length = (Nat.repr k).data.length := rfl
      omega
    simp [List.length_eq_zero.mp hz]
  intro i j hi hj h
  rcases Nat.lt_or_ge i 2 with h1 | h2 <;> rcases Nat.lt_or_ge j 2 with h1' | h2'
  · omega
  · exfalso
    have hli := congrArg String.length h
    rw [show i = 1 by omega] at hli
    simp only [candidate] at hli
    rw [if_pos (by omega), if_neg (by omega)] at hli
    simp [String.length_append] at hli
    have := hrep j
    omega
  · exfalso
    have hli := congrArg String.length h
    rw [show j = 1 by omega] at hli
    simp only [candidate] at hli
    rw [if_neg (by omega), if_pos (by omega)] at hli
    simp [String.length_append] at hli
    have := hrep i
    omega
  · simp only [candidate, if_neg (by omega : ¬ i ≤ 1), if_neg (by omega : ¬ j ≤ 1)] at h
    have hd := congrArg String.data h
    simp only [String.data_append] at hd
    have hdd : (Nat.repr i).data = (Nat.repr j).data := by simpa using hd
    exact repr_inj i j (String.ext hdd)

lemma exists_free (existing : Finset String) (x : String) :
    ∃ k, k < existing.card + 1 ∧ candidate x (1 + k) ∉ existing := by
  by_contra hc
  push_neg at hc
  have himg : (Finset.range (existing.card + 1)).image (fun k => candidate x (1 + k)) ⊆ existing := by
    intro s hs
    simp only [Finset.mem_image, Finset.mem_range] at hs
    obtain ⟨k, hk, rfl⟩ := hs
    exact hc k hk
  have hcard : ((Finset.range (existing.card + 1)).image (fun k => candidate x (1 + k))).card
      = existing.card + 1 := by
    rw [Finset.card_image_of_injOn, Finset.card_range]
    intro a ha b hb hab
    have := candidate_inj x (1 + a) (1 + b) (by omega) (by omega) hab
    omega
  have := Finset.card_le_card himg
  omega

lemma createFolderLoop_spec (existing : Finset String) (x : String) :
    ∀ fuel i, (∃ k, k < fuel ∧ candidate x (i + k) ∉ existing) →
      ∃ k, k < fuel ∧ createFolderLoop existing x i fuel = candidate x (i + k) ∧
        candidate x (i + k) ∉ existing ∧ ∀ j, j < k → candidate x (i + j) ∈ existing := by
  intro fuel
  induction fuel with
  | zero =>
    rintro i ⟨k, hk, -⟩
    omega
  | succ fuel ih =>
    rintro i ⟨k, hk, hfree⟩
    by_cases h : candidate x i ∈ existing
    · have hk0 : k ≠ 0 := by
        rintro rfl
        simp only [Nat.add_zero] at hfree
        exact hfree h
      obtain ⟨k', hk', heq, hfree', hall⟩ := ih (i + 1)
        ⟨k - 1, by omega, by rw [show (i + 1) + (k - 1) = i + k by omega]; exact hfree⟩
      refine ⟨k' + 1, by omega, ?_, ?_, ?_⟩
      · rw [createFolderLoop, if_pos h, heq]
        congr 1
        omega
      · rw [show i + (k' + 1) = (i + 1) + k' by omega]
        exact hfree'
      · intro j hj
        cases j with
        | zero => simpa using h
        | succ j =>
          rw [show i + (j + 1) = (i + 1) + j by omega]
          exact hall j (by omega)
    · exact ⟨0, by omega, by rw [createFolderLoop, if_neg h, Nat.add_zero], by simpa using h,
        by omega⟩

theorem createTargetFolder_spec (existing : Finset String) (x : String) :
    createTargetFolder existing x ∉ existing ∧
    ∃ i, 1 ≤ i ∧ createTargetFolder existing x = candidate x i ∧
      ∀ j, 1 ≤ j → j < i → candidate x j ∈ existing := by
  obtain ⟨k, hk, hfree⟩ := exists_free existing x
  obtain ⟨k', hk', heq, hfree', hall⟩ :=
    createFolderLoop_spec existing x (existing.card + 1) 1 ⟨k, hk, hfree⟩
  constructor
  · rw [createTargetFolder, heq]
    exact hfree'
  · refine ⟨1 + k', by omega, heq, ?_⟩
    intro j hj1 hjk
    rw [show j = 1 + (j - 1) by omega]
    exact hall (j - 1) (by omega)




/-! ## Claim theorems -/

/-- C4: for every `RecipeForCookBook`, the dictionary returned by
`to_json` contains a record field's key iff that field's value is truthy
(non-empty string, non-empty list, non-empty dict, non-zero number), and
always additionally contains `"@context" = "https://schema.org"` and
`"@type" = "Recipe"`. -/
theorem C4_to_json_truthy_keys (r : RecipeForCookBook) :
    ("name" ∈ jsonKeys (to_json r) ↔ r.name ≠ "") ∧
    ("recipeYield" ∈ jsonKeys (to_json r) ↔ r.recipeYield ≠ 0) ∧
    ("author" ∈ jsonKeys (to_json r) ↔ r.author ≠ "") ∧
    ("description" ∈ jsonKeys (to_json r) ↔ r.description ≠ "") ∧
    ("url" ∈ jsonKeys (to_json r) ↔ r.url ≠ "") ∧
    ("image" ∈ jsonKeys (to_json r) ↔ r.image ≠ "") ∧
    ("prepTime" ∈ jsonKeys (to_json r) ↔ r.prepTime ≠ "") ∧
    ("cookTime" ∈ jsonKeys (to_json r) ↔ r.cookTime ≠ "") ∧
    ("totalTime" ∈ jsonKeys (to_json r) ↔ r.totalTime ≠ "") ∧
    ("recipeCategory" ∈ jsonKeys (to_json r) ↔ r.recipeCategory ≠ "") ∧
    ("keywords" ∈ jsonKeys (to_json r) ↔ r.keywords ≠ []) ∧
    ("tool" ∈ jsonKeys (to_json r) ↔ r.tool ≠ []) ∧
    ("recipeIngredient" ∈ jsonKeys (to_json r) ↔ r.recipeIngredient ≠ []) ∧
    ("recipeInstructions" ∈ jsonKeys (to_json r) ↔ r.recipeInstructions ≠ []) ∧
    ("nutrition" ∈ jsonKeys (to_json r) ↔ r.nutrition ≠ []) ∧
    ("datePublished" ∈ jsonKeys (to_json r) ↔ r.datePublished ≠ "") ∧
    ("@context", JVal.s "https://schema.org") ∈ to_json r ∧
    ("@type", JVal.s "Recipe") ∈ to_json r := by
  refine ⟨?_, ?_, ?_, ?_, ?_, ?_, ?_, ?_, ?_, ?_, ?_, ?_, ?_, ?_, ?_, ?_, ?_, ?_⟩ <;>
    simp [jsonKeys, to_json, asdict, SCHEMA, JVal.truthy, List.mem_map, List.mem_append,
      List.mem_filter, List.isEmpty_iff]

/-- C6 counterexample: for the name `"a/b"` the code produces `"a-b"`
(slashes become hyphens), not the claimed lower-case/space-to-underscore
image `"a/b"`. -/
theorem C6_counterexample : folder_name "a/b" ≠ folderNameClaimC6 "a/b" := by decide

/-- C6 (amended): the derived folder name equals the recipe name
lower-cased with every space replaced by an underscore and every slash
replaced by a hyphen, and nothing else changed. -/
theorem C6_folder_name_amended (name : String) :
    folder_name name = folderNameAmendedC6 name := by
  apply String.ext
  simp only [folder_name, folderNameAmendedC6, pyReplaceChar, pyLower, List.map_map]
  congr 1
  funext c
  by_cases h1 : c.toLower = ' '
  · simp [Function.comp, h1]
  · by_cases h2 : c.toLower = '/'
    · simp [Function.comp, h1, h2]
    · simp [Function.comp, h1, h2]

/-- C10: constructing `URLToCookbook` with a `None` or empty `url_list`
raises an `AssertionError`, whatever `html_list` is supplied, so an
HTML-only run through this class fails at construction. -/
theorem C10_init_requires_urls (url_list : Option (List String)) (html_list : List String)
    (h : url_list = none ∨ url_list = some []) :
    urlToCookbookInit url_list html_list =
      Except.error (Exn.assertionError "No URLs provided for processing.") := by
  rcases h with rfl | rfl <;> simp [urlToCookbookInit]

/-- C10 witness: the empty URL list together with a non-empty HTML
list. -/
theorem C10_init_requires_urls_witness :
    urlToCookbookInit (some []) ["<html>x</html>"] =
      Except.error (Exn.assertionError "No URLs provided for processing.") :=
  C10_init_requires_urls (some []) ["<html>x</html>"] (Or.inr rfl)

/-- C3: `_create_target_folder` returns the first name of the sequence
`X`, `X_2`, `X_3`, ... that does not already exist under the target
folder; in particular, when folder `X` already exists (and `X_2` is
free), the recipe is saved under `X_2`. -/
theorem C3_create_target_folder_first_free (existing : Finset String) (x : String) :
    createTargetFolder existing x ∉ existing ∧
    (∃ i, 1 ≤ i ∧ createTargetFolder existing x = candidate x i ∧
      ∀ j, 1 ≤ j → j < i → candidate x j ∈ existing) ∧
    (x ∈ existing → candidate x 2 ∉ existing →
      createTargetFolder existing x = candidate x 2) := by
  obtain ⟨hfree, i, hi1, heq, hall⟩ := createTargetFolder_spec existing x
  refine ⟨hfree, ⟨i, hi1, heq, hall⟩, ?_⟩
  intro hx h2
  have hi2 : i = 2 := by
    rcases Nat.lt_or_ge i 2 with h | h
    · exfalso
      have h1 : i = 1 := by omega
      subst h1
      rw [heq] at hfree
      simp [candidate] at hfree
      exact hfree hx
    · rcases Nat.eq_or_lt_of_le h with h' | h'
      · omega
      · exact absurd (hall 2 (by omega) (by omega)) h2
  rw [hi2] at heq
  exact heq

/-- C3 witness: with only `"soup"` existing, the next recipe deriving the
same folder name goes to `"soup_2"`. -/
theorem C3_create_target_folder_witness :
    "soup" ∈ ({"soup"} : Finset String) ∧ candidate "soup" 2 ∉ ({"soup"} : Finset String) ∧
    createTargetFolder {"soup"} "soup" = candidate "soup" 2 :=
  ⟨by decide, by decide,
    (C3_create_target_folder_first_free {"soup"} "soup").2.2 (by decide) (by decide)⟩


/-- How `_save_scraped_recipe` changes the filesystem: either it fails
before creating the folder (filesystem and `target_folder` untouched), or
it creates exactly one fresh folder and records it in `target_folder`. -/
lemma saveScrapedRecipe_fs (env : Env) (fs : Finset String) (c : Container) :
    ((saveScrapedRecipe env fs c).1 = fs ∧
      (saveScrapedRecipe env fs c).2.1.target_folder = c.target_folder ∧
      (saveScrapedRecipe env fs c).2.2 ≠ none) ∨
    (∃ t, t ∉ fs ∧ (saveScrapedRecipe env fs c).1 = insert t fs ∧
      (saveScrapedRecipe env fs c).2.1.target_folder = some t) := by
  cases hp : env.parseRecipe c.raw_recipe with
  | error e => left; simp [saveScrapedRecipe, hp]
  | ok parsed =>
    right
    cases hj : env.saveJson (createTargetFolder fs (folder_name parsed.name)) parsed with
    | error e =>
      exact ⟨createTargetFolder fs (folder_name parsed.name),
        (createTargetFolder_spec fs (folder_name parsed.name)).1,
        by simp [saveScrapedRecipe, hp, hj], by simp [saveScrapedRecipe, hp, hj]⟩
    | ok u =>
      cases hi : env.fetchImage parsed.image with
      | error e =>
        exact ⟨createTargetFolder fs (folder_name parsed.name),
          (createTargetFolder_spec fs (folder_name parsed.name)).1,
          by simp [saveScrapedRecipe, hp, hj, hi], by simp [saveScrapedRecipe, hp, hj, hi]⟩
      | ok v =>
        exact ⟨createTargetFolder fs (folder_name parsed.name),
          (createTargetFolder_spec fs (folder_name parsed.name)).1,
          by simp [saveScrapedRecipe, hp, hj, hi], by simp [saveScrapedRecipe, hp, hj, hi]⟩

/-- When fetch and scrape succeed, the `try` body of `web_to_cookbook`
behaves like `_save_scraped_recipe` in filesystem, `target_folder` and
exception. -/
lemma webTry_proj (env : Env) (fs : Finset String) (c : Container) (html raw : String)
    (hf : env.fetchHtml c.source_content = Except.ok html)
    (hs : env.scrapeHtml html c.source_content = Except.ok raw) :
    (webTry env fs c).1 = (saveScrapedRecipe env fs { c with raw_recipe := some raw }).1 ∧
    (webTry env fs c).2.1.target_folder =
      (saveScrapedRecipe env fs { c with raw_recipe := some raw }).2.1.target_folder ∧
    (webTry env fs c).2.2 = (saveScrapedRecipe env fs { c with raw_recipe := some raw }).2.2 := by
  rcases hres : saveScrapedRecipe env fs { c with raw_recipe := some raw } with ⟨fs₁, c₁, e₁⟩
  simp only [webTry, hf, hs, hres]
  cases e₁ <;> simp

/-- On a failing `try` body, either nothing was created (and
`target_folder` is unchanged) or exactly one fresh folder was created and
recorded. -/
lemma webTry_failure_fs (env : Env) (fs : Finset String) (c : Container) (e : Exn)
    (h : (webTry env fs c).2.2 = some e) :
    ((webTry env fs c).1 = fs ∧ (webTry env fs c).2.1.target_folder = c.target_folder) ∨
    (∃ t, t ∉ fs ∧ (webTry env fs c).1 = insert t fs ∧
      (webTry env fs c).2.1.target_folder = some t) := by
  cases hf : env.fetchHtml c.source_content with
  | error e1 => left; simp [webTry, hf]
  | ok html =>
    cases hs : env.scrapeHtml html c.source_content with
    | error e1 => left; simp [webTry, hf, hs]
    | ok raw =>
      obtain ⟨h1, h2, h3⟩ := webTry_proj env fs c html raw hf hs
      rcases saveScrapedRecipe_fs env fs { c with raw_recipe := some raw } with
        ⟨g1, g2, g3⟩ | ⟨t, ht, g1, g2⟩
      · left
        exact ⟨h1.trans g1, h2.trans g2⟩
      · right
        exact ⟨t, ht, h1.trans g1, h2.trans g2⟩

/-- C2 (amended, URL path): `web_to_cookbook` on a container whose
`target_folder` is not yet set restores the filesystem exactly when the
`try` body raises: any folder created for the item is removed before the
exception propagates. (The raw-HTML path has no such rollback; see the
counterexample.) -/
theorem C2_web_to_cookbook_rollback (env : Env) (fs : Finset String) (c : Container)
    (hsrc : c.source = Source.url) (htgt : c.target_folder = none)
    (fs' : Finset String) (c' : Container) (e : Exn)
    (h : webToCookbook env fs c = (fs', c', some e)) : fs' = fs := by
  rw [webToCookbook, if_neg (by simp [hsrc])] at h
  rcases hw : webTry env fs c with ⟨fs₁, c₁, e₁⟩
  rw [hw] at h
  cases e₁ with
  | none => simp at h
  | some e₂ =>
    have hcases := webTry_failure_fs env fs c e₂ (by rw [hw])
    rw [hw] at hcases
    simp only at hcases
    rcases hcases with ⟨h1, h2⟩ | ⟨t, ht, h1, h2⟩
    · rw [htgt] at h2
      simp only [h2] at h
      rw [Prod.mk.injEq] at h
      rw [← h.1, h1]
    · simp only [h2, h1, Finset.mem_insert_self, if_true] at h
      rw [Prod.mk.injEq] at h
      rw [← h.1, Finset.erase_insert ht]

/-- C2 counterexample (raw-HTML path): with an environment where only the
image download fails, `html_to_cookbook` raises after having created the
folder `"soup"`, and the folder is still present afterwards — the claimed
rollback does not happen for items processed from raw HTML. -/
theorem C2_counterexample :
    (htmlToCookbook imageFailEnv ∅ (mkHtmlContainer "<html>")).2.2 =
        some (Exn.err "image download failed") ∧
    (htmlToCookbook imageFailEnv ∅ (mkHtmlContainer "<html>")).2.1.target_folder =
        some "soup" ∧
    "soup" ∈ (htmlToCookbook imageFailEnv ∅ (mkHtmlContainer "<html>")).1 := by
  decide

/-- C2 witness for the amended theorem: a URL item failing at the image
download leaves the filesystem as it was. -/
theorem C2_web_to_cookbook_rollback_witness :
    (webToCookbook imageFailEnv ∅ (mkUrlContainer "https://e.x/r")).1 = ∅ :=
  C2_web_to_cookbook_rollback imageFailEnv ∅ (mkUrlContainer "https://e.x/r") rfl rfl
    (webToCookbook imageFailEnv ∅ (mkUrlContainer "https://e.x/r")).1
    (webToCookbook imageFailEnv ∅ (mkUrlContainer "https://e.x/r")).2.1
    (Exn.err "image download failed") (by decide)


/-- A container already marked successful is left untouched (same list
position, same value) by the URL batch loop. -/
lemma runUrlsLoop_preserves_success (env : Env) :
    ∀ (cs : List Container) (fs : Finset String) (i : Nat) (c : Container),
      cs[i]? = some c → c.success = true →
      (runUrlsLoop env fs cs).containers[i]? = some c := by
  intro cs
  induction cs with
  | nil => intro fs i c h _; simp at h
  | cons d rest ih =>
    intro fs i c h hs
    cases i with
    | zero =>
      simp at h
      subst h
      simp [runUrlsLoop, hs]
    | succ i =>
      simp at h
      by_cases hd : d.success = true ∨ d.source ≠ Source.url
      · simp only [runUrlsLoop, if_pos hd]
        simpa using ih fs i c h hs
      · rcases hw : webToCookbook env fs d with ⟨fs₁, d₁, e₁⟩
        simp only [runUrlsLoop, if_neg hd, hw]
        simpa using ih fs₁ i c h hs

/-- A container already marked successful is left untouched by the HTML
batch loop. -/
lemma runHtmlsLoop_preserves_success (env : Env) :
    ∀ (cs : List Container) (fs : Finset String) (i : Nat) (c : Container),
      cs[i]? = some c → c.success = true →
      (runHtmlsLoop env fs cs).containers[i]? = some c := by
  intro cs
  induction cs with
  | nil => intro fs i c h _; simp at h
  | cons d rest ih =>
    intro fs i c h hs
    cases i with
    | zero =>
      simp at h
      subst h
      simp [runHtmlsLoop, hs]
    | succ i =>
      simp at h
      by_cases hd : d.success = true ∨ d.source ≠ Source.html
      · simp only [runHtmlsLoop, if_pos hd]
        simpa using ih fs i c h hs
      · rcases hw : htmlToCookbook env fs d with ⟨fs₁, d₁, e₁⟩
        cases e₁ with
        | none =>
          simp only [runHtmlsLoop, if_neg hd, hw]
          simpa using ih fs₁ i c h hs
        | some e =>
          simp only [runHtmlsLoop, if_neg hd, hw]
          simpa using ih fs₁ i c h hs

/-- The URL batch loop processes exactly the not-yet-successful URL
containers, in order. -/
lemma runUrlsLoop_processed (env : Env) :
    ∀ (cs : List Container) (fs : Finset String),
      (runUrlsLoop env fs cs).processed =
        (cs.filter (fun d => !d.success && decide (d.source = Source.url))).map
          (fun d => d.source_content) := by
  intro cs
  induction cs with
  | nil => intro fs; simp [runUrlsLoop]
  | cons d rest ih =>
    intro fs
    by_cases hd : d.success = true ∨ d.source ≠ Source.url
    · have hfilter : (!d.success && decide (d.source = Source.url)) = false := by
        rcases hd with h | h <;> simp [h]
      simp only [runUrlsLoop, if_pos hd, List.filter_cons, hfilter]
      simpa using ih fs
    · have hd1 : d.success = false := by
        cases hsd : d.success with
        | false => rfl
        | true => exact absurd (Or.inl hsd) hd
      have hd2 : d.source = Source.url := by
        by_contra h
        exact hd (Or.inr h)
      have hfilter : (!d.success && decide (d.source = Source.url)) = true := by
        simp [hd1, hd2]
      rcases hw : webToCookbook env fs d with ⟨fs₁, d₁, e₁⟩
      simp only [runUrlsLoop, if_neg hd, hw, List.filter_cons, hfilter]
      simpa using ih fs₁

/-- The HTML batch loop processes exactly the not-yet-successful HTML
containers, in order. -/
lemma runHtmlsLoop_processed (env : Env) :
    ∀ (cs : List Container) (fs : Finset String),
      (runHtmlsLoop env fs cs).processed =
        (cs.filter (fun d => !d.success && decide (d.source = Source.html))).map
          (fun d => d.source_content) := by
  intro cs
  induction cs with
  | nil => intro fs; simp [runHtmlsLoop]
  | cons d rest ih =>
    intro fs
    by_cases hd : d.success = true ∨ d.source ≠ Source.html
    · have hfilter : (!d.success && decide (d.source = Source.html)) = false := by
        rcases hd with h | h <;> simp [h]
      simp only [runHtmlsLoop, if_pos hd, List.filter_cons, hfilter]
      simpa using ih fs
    · have hd1 : d.success = false := by
        cases hsd : d.success with
        | false => rfl
        | true => exact absurd (Or.inl hsd) hd
      have hd2 : d.source = Source.html := by
        by_contra h
        exact hd (Or.inr h)
      have hfilter : (!d.success && decide (d.source = Source.html)) = true := by
        simp [hd1, hd2]
      rcases hw : htmlToCookbook env fs d with ⟨fs₁, d₁, e₁⟩
      cases e₁ with
      | none =>
        simp only [runHtmlsLoop, if_neg hd, hw, List.filter_cons, hfilter]
        simpa using ih fs₁
      | some e =>
        simp only [runHtmlsLoop, if_neg hd, hw, List.filter_cons, hfilter]
        simpa using ih fs₁

/-- C8: success is monotone. A container whose `success` flag is already
`true` is not processed again by `run_through_urls` or
`run_through_htmls` (both loops iterate only over the containers with
`success = False`), and it is left entirely unchanged; the processed
items are exactly the not-yet-successful ones of the matching source. -/
theorem C8_success_monotone (env : Env) (st : OState) (i : Nat) (c : Container)
    (hc : st.containers[i]? = some c) (hs : c.success = true) :
    (runThroughUrls env st).state.containers[i]? = some c ∧
    (runThroughHtmls env st).state.containers[i]? = some c ∧
    (runThroughUrls env st).processed =
      (st.containers.filter (fun d => !d.success && decide (d.source = Source.url))).map
        (fun d => d.source_content) ∧
    (runThroughHtmls env st).processed =
      (st.containers.filter (fun d => !d.success && decide (d.source = Source.html))).map
        (fun d => d.source_content) := by
  refine ⟨?_, ?_, ?_, ?_⟩
  · simpa [runThroughUrls] using runUrlsLoop_preserves_success env st.containers st.fs i c hc hs
  · simpa [runThroughHtmls] using runHtmlsLoop_preserves_success env st.containers st.fs i c hc hs
  · simpa [runThroughUrls] using runUrlsLoop_processed env st.containers st.fs
  · simpa [runThroughHtmls] using runHtmlsLoop_processed env st.containers st.fs

/-- C8 witness: a successful container is untouched by both batch runs. -/
theorem C8_success_monotone_witness :
    (runThroughUrls okEnv successState).state.containers[0]? = some successContainer :=
  (C8_success_monotone okEnv successState 0 successContainer (by decide) (by decide)).1


/-- Unfolding `urlContents` over a cons. -/
lemma urlContents_cons (d : Container) (l : List Container) :
    urlContents (d :: l) =
      if d.source = Source.url then d.source_content :: urlContents l else urlContents l := by
  simp only [urlContents, List.filter_cons]
  by_cases h : d.source = Source.url <;> simp [h]

/-- `_save_scraped_recipe` never changes the container's source, content
or success flag. -/
lemma saveScrapedRecipe_preserves (env : Env) (fs : Finset String) (c : Container) :
    (saveScrapedRecipe env fs c).2.1.source = c.source ∧
    (saveScrapedRecipe env fs c).2.1.source_content = c.source_content ∧
    (saveScrapedRecipe env fs c).2.1.success = c.success := by
  cases hp : env.parseRecipe c.raw_recipe with
  | error e => simp [saveScrapedRecipe, hp]
  | ok parsed =>
    cases hj : env.saveJson (createTargetFolder fs (folder_name parsed.name)) parsed with
    | error e => simp [saveScrapedRecipe, hp, hj]
    | ok u => cases hi : env.fetchImage parsed.image <;> simp [saveScrapedRecipe, hp, hj, hi]

/-- The `try` body of `web_to_cookbook` keeps source and content, and
flips `success` to `true` exactly when it raises no exception. -/
lemma webTry_spec (env : Env) (fs : Finset String) (c : Container) (hc : c.success = false) :
    (webTry env fs c).2.1.source = c.source ∧
    (webTry env fs c).2.1.source_content = c.source_content ∧
    ((webTry env fs c).2.1.success = true ↔ (webTry env fs c).2.2 = none) := by
  cases hf : env.fetchHtml c.source_content with
  | error e1 => simp [webTry, hf, hc]
  | ok html =>
    cases hs : env.scrapeHtml html c.source_content with
    | error e1 => simp [webTry, hf, hs, hc]
    | ok raw =>
      obtain ⟨p1, p2, p3⟩ := saveScrapedRecipe_preserves env fs { c with raw_recipe := some raw }
      rcases hres : saveScrapedRecipe env fs { c with raw_recipe := some raw } with ⟨fs₁, c₁, e₁⟩
      rw [hres] at p1 p2 p3
      simp only at p1 p2 p3
      simp only [webTry, hf, hs, hres]
      cases e₁ with
      | none => exact ⟨by simpa using p1, by simpa using p2, by simp⟩
      | some e => simp_all [hc]

/-- `web_to_cookbook` keeps source and content, and the container ends
successful exactly when no exception propagates. -/
lemma webToCookbook_spec (env : Env) (fs : Finset String) (c : Container)
    (hc : c.success = false) :
    (webToCookbook env fs c).2.1.source = c.source ∧
    (webToCookbook env fs c).2.1.source_content = c.source_content ∧
    ((webToCookbook env fs c).2.1.success = true ↔ (webToCookbook env fs c).2.2 = none) := by
  by_cases hsrc : c.source ≠ Source.url
  · simp [webToCookbook, hsrc, hc]
  · obtain ⟨p1, p2, p3⟩ := webTry_spec env fs c hc
    rcases hw : webTry env fs c with ⟨fs₁, c₁, e₁⟩
    rw [hw] at p1 p2 p3
    simp only at p1 p2 p3
    simp only [webToCookbook, if_neg hsrc, hw]
    cases e₁ with
    | none => exact ⟨by simpa using p1, by simpa using p2, by simp [p3.mpr rfl]⟩
    | some e =>
      cases htf : c₁.target_folder with
      | none => simp_all
      | some t => by_cases ht : t ∈ fs₁ <;> simp_all

/-- The URL batch loop does not change which containers are URL
containers nor their source contents (in order). -/
lemma runUrlsLoop_urlContents (env : Env) :
    ∀ (cs : List Container) (fs : Finset String),
      urlContents (runUrlsLoop env fs cs).containers = urlContents cs := by
  intro cs
  induction cs with
  | nil => intro fs; simp [runUrlsLoop, urlContents]
  | cons d rest ih =>
    intro fs
    by_cases hd : d.success = true ∨ d.source ≠ Source.url
    · simp only [runUrlsLoop, if_pos hd]
      simp [urlContents_cons, ih fs]
    · have hd1 : d.success = false := by
        cases hsd : d.success with
        | false => rfl
        | true => exact absurd (Or.inl hsd) hd
      obtain ⟨p1, p2, p3⟩ := webToCookbook_spec env fs d hd1
      rcases hw : webToCookbook env fs d with ⟨fs₁, d₁, e₁⟩
      rw [hw] at p1 p2 p3
      simp only at p1 p2 p3
      simp only [runUrlsLoop, if_neg hd, hw]
      simp [urlContents_cons, p1, p2, ih fs₁]

/-- The collected exceptions are in bijection with the containers still
unsuccessful after the URL batch loop: one exception per failed item. -/
lemma runUrlsLoop_exns (env : Env) :
    ∀ (cs : List Container) (fs : Finset String),
      (runUrlsLoop env fs cs).exns.length =
        ((runUrlsLoop env fs cs).containers.filter
          (fun d => !d.success && decide (d.source = Source.url))).length := by
  intro cs
  induction cs with
  | nil => intro fs; simp [runUrlsLoop]
  | cons d rest ih =>
    intro fs
    by_cases hd : d.success = true ∨ d.source ≠ Source.url
    · have hfilter : (!d.success && decide (d.source = Source.url)) = false := by
        rcases hd with h | h <;> simp [h]
      simp only [runUrlsLoop, if_pos hd, List.filter_cons, hfilter]
      simpa using ih fs
    · have hd1 : d.success = false := by
        cases hsd : d.success with
        | false => rfl
        | true => exact absurd (Or.inl hsd) hd
      have hd2 : d.source = Source.url := by
        by_contra h
        exact hd (Or.inr h)
      obtain ⟨p1, p2, p3⟩ := webToCookbook_spec env fs d hd1
      rcases hw : webToCookbook env fs d with ⟨fs₁, d₁, e₁⟩
      rw [hw] at p1 p2 p3
      simp only at p1 p2 p3
      simp only [runUrlsLoop, if_neg hd, hw]
      cases e₁ with
      | none =>
        have hsucc : d₁.success = true := p3.mpr rfl
        simp only [List.filter_cons, hsucc, Bool.not_true, Bool.false_and, List.length_cons]
        simpa using ih fs₁
      | some e =>
        have hsucc : d₁.success = false := by
          cases hsd : d₁.success with
          | false => rfl
          | true => exact absurd (p3.mp hsd) (by simp)
        have hft : (!d₁.success && decide (d₁.source = Source.url)) = true := by
          simp [hsucc, p1, hd2]
        simp only [List.filter_cons, hft, if_true, List.length_cons]
        simpa using ih fs₁

/-- C5: `run_through_urls` raises iff at least one per-URL item raised
during the batch (equivalently: some URL container ends the batch
unsuccessful); the aggregate exception carries exactly the collected
per-item exceptions, one per failed item; no per-item exception escapes
the loop — only the final `ExceptionGroup` is raised, after the batch
(including the failed-URL file update) completes. -/
theorem C5_run_through_urls_aggregate (env : Env) (st : OState) :
    ((runThroughUrls env st).raised.isSome = true ↔
      ∃ c ∈ (runThroughUrls env st).state.containers,
        c.source = Source.url ∧ c.success = false) ∧
    (runThroughUrls env st).raised.elim [] EGroup.exceptions = (runThroughUrls env st).exns ∧
    (runThroughUrls env st).exns.length =
      ((runThroughUrls env st).state.containers.filter
        (fun d => !d.success && decide (d.source = Source.url))).length := by
  have hlen : (runThroughUrls env st).exns.length =
      ((runThroughUrls env st).state.containers.filter
        (fun d => !d.success && decide (d.source = Source.url))).length := by
    simpa [runThroughUrls] using runUrlsLoop_exns env st.containers st.fs
  refine ⟨?_, ?_, hlen⟩
  · have h1 : (runThroughUrls env st).raised.isSome = true ↔
        (runThroughUrls env st).exns ≠ [] := by
      simp only [runThroughUrls]
      by_cases he : (runUrlsLoop env st.fs st.containers).exns.isEmpty = true
      · rw [List.isEmpty_iff] at he
        simp [he]
      · have hne : (runUrlsLoop env st.fs st.containers).exns ≠ [] := by
          intro hnil
          exact he (by simp [hnil])
        simp [he, hne]
    rw [h1]
    constructor
    · intro hne
      have hpos : 0 < ((runThroughUrls env st).state.containers.filter
          (fun d => !d.success && decide (d.source = Source.url))).length := by
        rw [← hlen]
        exact List.length_pos.mpr hne
      obtain ⟨c, hc⟩ := List.exists_mem_of_ne_nil _ (List.length_pos.mp hpos)
      rw [List.mem_filter] at hc
      refine ⟨c, hc.1, ?_, ?_⟩
      · have h2 := hc.2
        simp only [Bool.and_eq_true, decide_eq_true_eq] at h2
        exact h2.2
      · have h2 := hc.2
        cases hcs : c.success with
        | false => rfl
        | true => rw [hcs] at h2; simp at h2
    · rintro ⟨c, hc, hurl, hsucc⟩
      have hmem : c ∈ (runThroughUrls env st).state.containers.filter
          (fun d => !d.success && decide (d.source = Source.url)) := by
        rw [List.mem_filter]
        exact ⟨hc, by simp [hurl, hsucc]⟩
      have hpos := List.length_pos_of_mem hmem
      rw [← hlen] at hpos
      exact List.length_pos.mp hpos
  · simp only [runThroughUrls]
    by_cases he : (runUrlsLoop env st.fs st.containers).exns.isEmpty = true
    · rw [List.isEmpty_iff] at he
      simp [he]
    · rw [if_neg he]
      simp [Option.elim]


/-- Failed URLs of a run all come from URL containers. -/
lemma failedUrls_subset (cs : List Container) : failedUrls cs ⊆ (urlContents cs).toFinset := by
  intro u hu
  simp only [failedUrls, List.mem_toFinset, List.mem_map, List.mem_filter] at hu
  obtain ⟨c, ⟨hc, hp⟩, rfl⟩ := hu
  simp only [urlContents, List.mem_toFinset, List.mem_map, List.mem_filter]
  simp only [Bool.and_eq_true] at hp
  exact ⟨c, ⟨hc, hp.2⟩, rfl⟩

/-- Successful URLs of a run all come from URL containers. -/
lemma successUrls_subset (cs : List Container) : successUrls cs ⊆ (urlContents cs).toFinset := by
  intro u hu
  simp only [successUrls, List.mem_toFinset, List.mem_map, List.mem_filter] at hu
  obtain ⟨c, ⟨hc, hp⟩, rfl⟩ := hu
  simp only [urlContents, List.mem_toFinset, List.mem_map, List.mem_filter]
  simp only [Bool.and_eq_true] at hp
  exact ⟨c, ⟨hc, hp.2⟩, rfl⟩

/-- When no URL occurs in two different containers, a URL cannot be both
successfully processed and still failing in the same run. -/
lemma successUrls_disjoint_failedUrls (cs : List Container)
    (h : (urlContents cs).Nodup) : Disjoint (successUrls cs) (failedUrls cs) := by
  induction cs with
  | nil => simp [successUrls, failedUrls]
  | cons c rest ih =>
    by_cases hu : c.source = Source.url
    · rw [urlContents_cons, if_pos hu, List.nodup_cons] at h
      have hnotin : c.source_content ∉ urlContents rest := h.1
      have htail := ih h.2
      cases hs : c.success with
      | true =>
        have hS : successUrls (c :: rest) = insert c.source_content (successUrls rest) := by
          simp [successUrls, List.filter_cons, hs, hu]
        have hF : failedUrls (c :: rest) = failedUrls rest := by
          simp [failedUrls, List.filter_cons, hs, hu]
        rw [hS, hF]
        refine Finset.disjoint_insert_left.mpr ⟨?_, htail⟩
        intro hmem
        exact hnotin (by simpa using failedUrls_subset rest hmem)
      | false =>
        have hS : successUrls (c :: rest) = successUrls rest := by
          simp [successUrls, List.filter_cons, hs, hu]
        have hF : failedUrls (c :: rest) = insert c.source_content (failedUrls rest) := by
          simp [failedUrls, List.filter_cons, hs, hu]
        rw [hS, hF]
        refine Finset.disjoint_insert_right.mpr ⟨?_, htail⟩
        intro hmem
        exact hnotin (by simpa using successUrls_subset rest hmem)
    · rw [urlContents_cons, if_neg hu] at h
      have hS : successUrls (c :: rest) = successUrls rest := by
        simp [successUrls, List.filter_cons, hu]
      have hF : failedUrls (c :: rest) = failedUrls rest := by
        simp [failedUrls, List.filter_cons, hu]
      rw [hS, hF]
      exact ih h

/-- C1: after `run_through_urls` finishes `_update_failed_urls_file`, the
URL set recorded in `<target>/failed_urls.txt` equals the union of the
previously recorded URLs and this run's failing URLs, minus this run's
successful URLs (each URL at most once — the file is written from a
set). The hypothesis that no URL occurs in two containers holds for every
state built by `URLToCookbook.__init__`. -/
theorem C1_failed_urls_file (env : Env) (st : OState)
    (h : (urlContents st.containers).Nodup) :
    (runThroughUrls env st).state.failedFile =
      (st.failedFile ∪ failedUrls (runThroughUrls env st).state.containers) \
        successUrls (runThroughUrls env st).state.containers := by
  have hcont : (runThroughUrls env st).state.containers =
      (runUrlsLoop env st.fs st.containers).containers := rfl
  have hpres : urlContents (runThroughUrls env st).state.containers =
      urlContents st.containers := by
    rw [hcont]
    exact runUrlsLoop_urlContents env st.containers st.fs
  have hnd : (urlContents (runThroughUrls env st).state.containers).Nodup := by
    rw [hpres]
    exact h
  have hdisj := successUrls_disjoint_failedUrls _ hnd
  have hupd : (runThroughUrls env st).state.failedFile =
      (st.failedFile \ successUrls (runThroughUrls env st).state.containers) ∪
        failedUrls (runThroughUrls env st).state.containers := rfl
  rw [hupd, Finset.union_sdiff_distrib]
  congr 1
  exact (Finset.sdiff_eq_self_iff_disjoint.mpr hdisj.symm).symm

/-- C1 witness: one fresh URL container whose fetch fails. -/
theorem C1_failed_urls_file_witness :
    (runThroughUrls fetchFailEnv oneUrlState).state.failedFile =
      (oneUrlState.failedFile ∪
        failedUrls (runThroughUrls fetchFailEnv oneUrlState).state.containers) \
        successUrls (runThroughUrls fetchFailEnv oneUrlState).state.containers :=
  C1_failed_urls_file fetchFailEnv oneUrlState (by decide)


/-- Behaviour of `run_through_urls_with_retry` for any retry budget:
at most `n` batch invocations, runs separated by single 2-second pauses,
one recorded state per attempt, the loop continues only while some URL
container is unsuccessful, and (for `n ≥ 1`) a fully successful final
state has no trailing pause. -/
lemma runWithRetry_spec (env : Env) :
    ∀ (n : Nat) (st : OState),
      ((runWithRetry env st n).1.count REvent.run ≤ n) ∧
      RetryShape (runWithRetry env st n).1 ∧
      ((runWithRetry env st n).2.1.length = (runWithRetry env st n).1.count REvent.run) ∧
      (∀ i, i + 1 < (runWithRetry env st n).2.1.length →
        ∀ s, (runWithRetry env st n).2.1[i]? = some s → allUrlSuccess s = false) ∧
      (1 ≤ n → allUrlSuccess (runWithRetry env st n).2.2 = true →
        (runWithRetry env st n).1.count (REvent.sleep 2) + 1 =
          (runWithRetry env st n).1.count REvent.run) := by
  intro n
  induction n with
  | zero =>
    intro st
    refine ⟨by simp [runWithRetry], ?_, by simp [runWithRetry], ?_, ?_⟩
    · exact RetryShape.nil
    · intro i hi s hs
      simp [runWithRetry] at hi
    · intro h1 _
      exact absurd h1 (by omega)
  | succ n ih =>
    intro st
    by_cases hall : allUrlSuccess (runThroughUrls env st).state = true
    · simp only [runWithRetry, hall, if_true]
      refine ⟨by simp, RetryShape.last, by simp, ?_, ?_⟩
      · intro i hi s hs
        simp at hi
      · intro _ _
        simp
    · obtain ⟨ih1, ih2, ih3, ih4, ih5⟩ := ih (runThroughUrls env st).state
      have hallf : allUrlSuccess (runThroughUrls env st).state = false := by
        cases hv : allUrlSuccess (runThroughUrls env st).state with
        | false => rfl
        | true => exact absurd hv hall
      have d1 : (REvent.run == REvent.sleep 2) = false := by decide
      have d2 : (REvent.sleep 2 == REvent.sleep 2) = true := by decide
      have d3 : (REvent.run == REvent.run) = true := by decide
      have d4 : (REvent.sleep 2 == REvent.run) = false := by decide
      simp only [runWithRetry, hallf, Bool.false_eq_true, if_false]
      refine ⟨?_, ?_, ?_, ?_, ?_⟩
      · simp [List.count_cons, d3, d4]
        omega
      · exact RetryShape.step _ ih2
      · simp [List.count_cons, d3, d4]
        omega
      · intro i hi s hs
        cases i with
        | zero =>
          simp at hs
          rw [← hs]
          exact hallf
        | succ i =>
          simp at hi hs
          exact ih4 i (by omega) s hs
      · intro _ hfin
        cases n with
        | zero =>
          exfalso
          have hfin0 : (runWithRetry env (runThroughUrls env st).state 0).2.2 =
              (runThroughUrls env st).state := rfl
          rw [hfin0] at hfin
          exact hall hfin
        | succ m =>
          have hc := ih5 (by omega) hfin
          simp [List.count_cons, d1, d2, d3, d4]
          omega


/-- C7: for every retries value `n ≥ 1`, `run_through_urls_with_retry`
invokes the whole-batch `run_through_urls` at most `n` times, pauses a
constant 2 seconds between consecutive attempts, and stops early
(performing no further attempts or pauses) as soon as no URL container
remains unsuccessful. -/
theorem C7_retry_policy (env : Env) (st : OState) (n : Nat) (hn : 1 ≤ n) :
    ((runWithRetry env st n).1.count REvent.run ≤ n) ∧
    RetryShape (runWithRetry env st n).1 ∧
    ((runWithRetry env st n).2.1.length = (runWithRetry env st n).1.count REvent.run) ∧
    (∀ i, i + 1 < (runWithRetry env st n).2.1.length →
      ∀ s, (runWithRetry env st n).2.1[i]? = some s → allUrlSuccess s = false) ∧
    (allUrlSuccess (runWithRetry env st n).2.2 = true →
      (runWithRetry env st n).1.count (REvent.sleep 2) + 1 =
        (runWithRetry env st n).1.count REvent.run) := by
  obtain ⟨h1, h2, h3, h4, h5⟩ := runWithRetry_spec env n st
  exact ⟨h1, h2, h3, h4, h5 hn⟩

/-- C7 witness: one permitted attempt on a state whose only URL container
already succeeded. -/
theorem C7_retry_policy_witness :
    (runWithRetry okEnv successState 1).1.count REvent.run ≤ 1 ∧
    RetryShape (runWithRetry okEnv successState 1).1 :=
  ⟨(C7_retry_policy okEnv successState 1 (by decide)).1,
   (C7_retry_policy okEnv successState 1 (by decide)).2.1⟩


/-- Membership after a Python set insertion. -/
lemma mem_pySetInsert (s : List Container) (c d : Container) :
    d ∈ pySetInsert s c ↔ d ∈ s ∨ d = c := by
  by_cases h : c ∈ s
  · simp only [pySetInsert, if_pos h]
    constructor
    · exact Or.inl
    · rintro (hd | rfl)
      · exact hd
      · exact h
  · simp [pySetInsert, if_neg h]

/-- Python set insertion keeps the no-duplicates invariant. -/
lemma nodup_pySetInsert (s : List Container) (c : Container) (h : s.Nodup) :
    (pySetInsert s c).Nodup := by
  by_cases hc : c ∈ s
  · simpa [pySetInsert, hc] using h
  · rw [pySetInsert, if_neg hc]
    exact List.Nodup.append h (List.nodup_singleton c)
      (fun x hx hxc => hc ((List.mem_singleton.mp hxc) ▸ hx))

/-- Membership after a Python set `update`. -/
lemma mem_foldl_pySetInsert :
    ∀ (l acc : List Container) (d : Container),
      d ∈ l.foldl pySetInsert acc ↔ d ∈ acc ∨ d ∈ l := by
  intro l
  induction l with
  | nil => intro acc d; simp
  | cons c rest ih =>
    intro acc d
    rw [List.foldl_cons, ih, mem_pySetInsert]
    constructor
    · rintro ((hd | rfl) | hd)
      · exact Or.inl hd
      · exact Or.inr (List.mem_cons_self _ _)
      · exact Or.inr (List.mem_cons_of_mem _ hd)
    · rintro (hd | hd)
      · exact Or.inl (Or.inl hd)
      · rcases List.mem_cons.mp hd with rfl | hd
        · exact Or.inl (Or.inr rfl)
        · exact Or.inr hd

/-- A Python set `update` keeps the no-duplicates invariant. -/
lemma nodup_foldl_pySetInsert :
    ∀ (l acc : List Container), acc.Nodup → (l.foldl pySetInsert acc).Nodup := by
  intro l
  induction l with
  | nil => intro acc h; simpa using h
  | cons c rest ih =>
    intro acc h
    rw [List.foldl_cons]
    exact ih _ (nodup_pySetInsert acc c h)

/-- Element membership of a built Python set. -/
lemma mem_pySet (l : List Container) (d : Container) : d ∈ pySet l ↔ d ∈ l := by
  rw [pySet, mem_foldl_pySetInsert]
  simp

/-- A built Python set has no duplicates. -/
lemma nodup_pySet (l : List Container) : (pySet l).Nodup :=
  nodup_foldl_pySetInsert l [] List.nodup_nil

/-- The container set built by `URLToCookbook.__init__` has no duplicate
containers, and holds exactly the freshly built HTML and URL
containers. -/
lemma urlToCookbookInit_ok (us htmls : List String) (cs : List Container)
    (h : urlToCookbookInit (some us) htmls = Except.ok cs) :
    cs.Nodup ∧ ∀ c, c ∈ cs ↔ c ∈ htmls.map mkHtmlContainer ∨ c ∈ us.map mkUrlContainer := by
  by_cases hemp : us.isEmpty = true
  · simp [urlToCookbookInit, hemp] at h
  · simp only [urlToCookbookInit] at h
    rw [if_neg hemp] at h
    have hcs : (pySet (us.map mkUrlContainer)).foldl pySetInsert
        (htmlToCookbookInitContainers htmls) = cs := Except.ok.inj h
    subst hcs
    constructor
    · exact nodup_foldl_pySetInsert _ _ (nodup_pySet _)
    · intro c
      rw [mem_foldl_pySetInsert, htmlToCookbookInitContainers, mem_pySet, mem_pySet]

/-- C9: the orchestrator stores its work in a set of containers, so
duplicate URLs in `url_list` collapse: the URL containers carry pairwise
distinct URLs, their number equals the number of distinct URLs, they
carry exactly the URLs of `url_list`, and one batch attempt processes
each distinct URL exactly once. -/
theorem C9_container_set_dedup (env : Env) (us htmls : List String) (fs ff : Finset String)
    (cs : List Container) (h : urlToCookbookInit (some us) htmls = Except.ok cs) :
    (urlContents cs).Nodup ∧
    (urlContents cs).length = us.dedup.length ∧
    (∀ u, u ∈ urlContents cs ↔ u ∈ us) ∧
    (runThroughUrls env ⟨cs, fs, ff⟩).processed = urlContents cs := by
  obtain ⟨hnd, hmem⟩ := urlToCookbookInit_ok us htmls cs h
  have hurl : ∀ c ∈ cs, c.source = Source.url → ∃ u ∈ us, c = mkUrlContainer u := by
    intro c hc hcu
    rcases (hmem c).mp hc with hh | hu
    · exfalso
      obtain ⟨x, hx, rfl⟩ := List.mem_map.mp hh
      simp [mkHtmlContainer] at hcu
    · obtain ⟨u, hu3, rfl⟩ := List.mem_map.mp hu
      exact ⟨u, hu3, rfl⟩
  have hnodupUC : (urlContents cs).Nodup := by
    apply List.Nodup.map_on ?_ (hnd.filter _)
    intro x hx y hy hxy
    rw [List.mem_filter] at hx hy
    have hxs : x.source = Source.url := by simpa using hx.2
    have hys : y.source = Source.url := by simpa using hy.2
    obtain ⟨u1, _, rfl⟩ := hurl x hx.1 hxs
    obtain ⟨u2, _, rfl⟩ := hurl y hy.1 hys
    simp only [mkUrlContainer] at hxy
    rw [hxy]
  have hmemUC : ∀ u, u ∈ urlContents cs ↔ u ∈ us := by
    intro u
    constructor
    · intro hu
      simp only [urlContents, List.mem_map, List.mem_filter] at hu
      obtain ⟨c, ⟨hc, hcu⟩, rfl⟩ := hu
      obtain ⟨u2, hu2, rfl⟩ := hurl c hc (by simpa using hcu)
      simpa [mkUrlContainer] using hu2
    · intro hu
      simp only [urlContents, List.mem_map, List.mem_filter]
      exact ⟨mkUrlContainer u, ⟨(hmem _).mpr (Or.inr (List.mem_map_of_mem _ hu)),
        by simp [mkUrlContainer]⟩, rfl⟩
  refine ⟨hnodupUC, ?_, hmemUC, ?_⟩
  · have h1 : (urlContents cs).toFinset = us.toFinset := by
      ext u
      simp only [List.mem_toFinset]
      exact hmemUC u
    calc (urlContents cs).length = (urlContents cs).toFinset.card :=
          (List.toFinset_card_of_nodup hnodupUC).symm
      _ = us.toFinset.card := by rw [h1]
      _ = us.dedup.length := List.card_toFinset us
  · have hsf : ∀ c ∈ cs, c.success = false := by
      intro c hc
      rcases (hmem c).mp hc with hh | hu
      · obtain ⟨x, hx2, rfl⟩ := List.mem_map.mp hh
        rfl
      · obtain ⟨u, hu2, rfl⟩ := List.mem_map.mp hu
        rfl
    have hfeq : cs.filter (fun d => !d.success && decide (d.source = Source.url)) =
        cs.filter (fun d => decide (d.source = Source.url)) :=
      List.filter_congr (fun c hc => by simp [hsf c hc])
    show (runUrlsLoop env fs cs).processed = urlContents cs
    rw [runUrlsLoop_processed env cs fs, hfeq]
    rfl

/-- C9 witness: a URL list with a duplicate yields one container per
distinct URL. -/
theorem C9_container_set_dedup_witness :
    urlToCookbookInit (some ["https://e.x/a", "https://e.x/a", "https://e.x/b"]) [] =
      Except.ok [mkUrlContainer "https://e.x/a", mkUrlContainer "https://e.x/b"] ∧
    (urlContents [mkUrlContainer "https://e.x/a", mkUrlContainer "https://e.x/b"]).length =
      (["https://e.x/a", "https://e.x/a", "https://e.x/b"].dedup).length :=
  ⟨by rfl,
    (C9_container_set_dedup okEnv ["https://e.x/a", "https://e.x/a", "https://e.x/b"] [] ∅ ∅
      [mkUrlContainer "https://e.x/a", mkUrlContainer "https://e.x/b"] (by rfl)).2.1⟩

end RecipeParser
